import Mathlib

/-!
# imagepuller: the pull worker of `main.go`

A shallow embedding of `parseImageName`, `pullWorker.getImageInfo`,
`pullWorker.doPullImage`, `pullWorker.finishPulling` and `Pull`.

Conventions of the embedding

* A Go `error` is identified with its message (`Err`); `nil` is `none`.
* Go strings are Lean strings. `strings.Cut(s, ":")` looks for the byte `0x3A`,
  which in UTF-8 text occurs only as the character `:`.
* Go `int` is 64 bits wide; `int32(x)` is `toInt32 x`.
* The image service and the scheduler are external. What they answer and which
  case of each `select` fires is an argument of the embedded function.
-/

namespace ImagePuller

/-! ## Errors and strings -/

/-- A Go error value, identified with the text of its `Error()` method. -/
abbrev Err := String

/-- The body of `strings.Cut` for a one-character separator, on the characters
of the string: the text before and after the first occurrence of `sep`. -/
def cutAt (sep : Char) : List Char → Option (List Char × List Char)
  | [] => none
  | c :: cs =>
    if c = sep then some ([], cs)
    else
      match cutAt sep cs with
      | some (before, after) => some (c :: before, after)
      | none => none

/-- Go `strings.Cut(s, sep)` for a one-character `sep`: `(before, after, found)`;
when `sep` does not occur the result is `(s, "", false)`. -/
def Cut (s : String) (sep : Char) : String × String × Bool :=
  match cutAt sep s.data with
  | some (before, after) => (String.mk before, String.mk after, true)
  | none => (s, "", false)

/-- Source `parseImageName` (main.go 82-95): `(name, tag, err)`. -/
def parseImageName (imgName : String) : String × String × Option Err :=
  match Cut imgName ':' with
  | (name, tag, valid) =>
    if !valid then
      (imgName, "latest", none)
    else if name = "" then
      ("", "", some ("Invalid image name \"" ++ imgName ++ "\", empty name"))
    else if tag = "" then
      (name, "latest", none)
    else
      (name, tag, none)

/-! ## The split as the specification words it -/

/-- The text before the first `:` of the input, the whole input when it has no `:`. -/
def textBeforeColon (s : String) : String :=
  String.mk (s.data.takeWhile (fun c => c != ':'))

/-- The text after the first `:` of the input (empty when there is no `:`). -/
def textAfterColon (s : String) : String :=
  String.mk ((s.data.dropWhile (fun c => c != ':')).drop 1)

/-- Whether the input has a `:`. -/
def hasColon (s : String) : Bool :=
  s.data.any (fun c => c == ':')

/-- The reference split of the specification: the name is the text before the
first `:`, the tag is the text after it when a `:` is present and that text is
not empty, and `latest` otherwise. -/
def referenceSplit (s : String) : String × String :=
  (textBeforeColon s,
    if hasColon s && textAfterColon s != "" then textAfterColon s else "latest")

/-! ## Data model -/

/-- A reading of the wall clock (`metav1.Now()`). -/
abbrev Time := Nat

/-- Go `int32(x)` for an `int` value `x`: the low 32 bits, read as a signed number. -/
def toInt32 (x : Int) : Int :=
  (x + 2147483648) % 4294967296 - 2147483648

/-- The pull phases of `appsv1alpha1` that the program uses. -/
inductive ImagePullPhase where
  | Pulling
  | Succeeded
  | Failed
deriving DecidableEq, Repr

/-- The status record `appsv1alpha1.ImageTagStatus`; `Progress` is an `int32`. -/
structure ImageTagStatus where
  Tag : String
  Phase : ImagePullPhase
  Progress : Int
  StartTime : Option Time
  CompletionTime : Option Time
  Message : String
deriving DecidableEq, Repr

/-- The spec of a tag, `appsv1alpha1.ImageTagSpec`: only `Tag` is used. -/
structure ImageTagSpec where
  Tag : String
deriving DecidableEq, Repr

/-- A `context.Context`, seen through `Done()`: whether it is already canceled. -/
structure Context where
  canceled : Bool
deriving DecidableEq, Repr

/-- An inventory record `runtimeimage.ImageInfo`; the worker uses only its
method `ContainsImage(name, tag)`. -/
structure ImageInfo where
  ContainsImage : String → String → Bool

/-- A progress event `runtimeimage.ImagePullStatus`; `Process` is a Go `int`. -/
structure ImagePullStatus where
  Err : Option Err
  Process : Int
  DetailInfo : String
  Finish : Bool
deriving DecidableEq, Repr

/-- A status stream handle `runtimeimage.ImagePullStatusReader` (non-nil). -/
structure ImagePullStatusReader where
  id : Nat
deriving DecidableEq, Repr

/-- The image service `runtimeimage.ImageService` as it answers during one
attempt: each method returns the Go pair `(value, err)`. -/
structure ImageService where
  ListImages : Context → List ImageInfo × Option Err
  PullImage : Context → String → String → Option ImagePullStatusReader × Option Err

/-- Source `pullWorker` (main.go 145-155). The mutex and `secrets` (always nil)
carry no behaviour; `stopCh` is seen through the schedule. -/
structure pullWorker where
  name : String
  tagSpec : ImageTagSpec
  runtime : ImageService
  active : Bool

/-! ## Scheduling -/

/-- The case of the first `select` of `doPullImage` (main.go 186-199) that fires. -/
inductive FirstSelect where
  | stopCh
  | ctxDone
  | pullChan
deriving DecidableEq, Repr

/-- The case of the `select` in the progress loop (main.go 208-231) that fires:
the stop signal, the context, the log ticker, an event received from the status
channel, or the status channel found closed. -/
inductive LoopSelect where
  | stopCh
  | ctxDone
  | logTicker
  | status (progressStatus : ImagePullStatus)
  | statusClosed
deriving DecidableEq, Repr

/-- What the scheduler delivers to one attempt: the case taken by the first
select (`none`: the observation ends while the worker still waits there) and
the cases taken by the successive iterations of the progress loop. -/
structure Schedule where
  first : Option FirstSelect
  loop : List LoopSelect
deriving DecidableEq, Repr

/-- How a call ends: it returns an error value (`none` is nil), it panics, or
the observed schedule ends while the worker waits at a `select`. -/
inductive Exit where
  | returned (err : Option Err)
  | panicked
  | waiting
deriving DecidableEq, Repr

/-- The outcome of one `doPullImage` call with its observable effects. -/
structure AttemptResult where
  /-- How the call ended. -/
  exit : Exit
  /-- The status record after the call. -/
  status : ImageTagStatus
  /-- The number of `PullImage` invocations launched. -/
  pullCalls : Nat
  /-- The readers closed by the deferred `statusReader.Close()`. -/
  deferredClosed : List ImagePullStatusReader
  /-- The readers closed by a spawned `closeStatusReader` goroutine once the
  `PullImage` call has returned. -/
  teardownClosed : List ImagePullStatusReader

/-! ## The worker -/

/-- Source `getImageInfo` (main.go 235-248), as `(info, err)`. -/
def getImageInfo (w : pullWorker) (ctx : Context) : Option ImageInfo × Option Err :=
  match w.runtime.ListImages ctx with
  | (_, some err) => (none, some err)
  | (imageInfos, none) =>
    match imageInfos.find? (fun info => info.ContainsImage w.name w.tagSpec.Tag) with
    | some info => (some info, none)
    | none => (none, some ("image " ++ w.name ++ ":" ++ w.tagSpec.Tag ++ " not found"))

/-- Source `finishPulling` (main.go 250-257); `now` is the reading of the clock. -/
def finishPulling (newStatus : ImageTagStatus) (phase : ImagePullPhase) (message : String)
    (now : Time) : ImageTagStatus :=
  { newStatus with Phase := phase, CompletionTime := some now, Message := message }

/-- The closure `closeStatusReader` of `doPullImage` (main.go 177-184) once
`pullChan` is closed: the readers it closes. -/
def closeStatusReader (statusReader : Option ImagePullStatusReader) :
    List ImagePullStatusReader :=
  match statusReader with
  | some r => [r]
  | none => []

/-- The error of the stop case (main.go 190, 211). -/
def stoppedError (w : pullWorker) : Err :=
  "pulling image " ++ w.name ++ ":" ++ w.tagSpec.Tag ++ " is stopped"

/-- The error of the context case (main.go 194, 214). -/
def canceledError (w : pullWorker) : Err :=
  "pulling image " ++ w.name ++ ":" ++ w.tagSpec.Tag ++ " is canceled"

/-- The error of a closed status channel (main.go 219). -/
def internalError (w : pullWorker) : Err :=
  "pulling image " ++ w.name ++ ":" ++ w.tagSpec.Tag ++ " internal error"

/-- The error of a failed terminal event (main.go 229): `%v` prints the message
of the event's error. -/
def finishError (w : pullWorker) (e : Err) : Err :=
  "pulling image " ++ w.name ++ ":" ++ w.tagSpec.Tag ++ " error " ++ e

/-- The progress loop of `doPullImage` (main.go 207-232): how it exits and the
status record then. The locals `progress` and `progressInfo` only feed the log. -/
def progressLoop (w : pullWorker) : ImageTagStatus → List LoopSelect → Exit × ImageTagStatus
  | newStatus, [] => (Exit.waiting, newStatus)
  | newStatus, LoopSelect.stopCh :: _ => (Exit.returned (some (stoppedError w)), newStatus)
  | newStatus, LoopSelect.ctxDone :: _ => (Exit.returned (some (canceledError w)), newStatus)
  | newStatus, LoopSelect.logTicker :: rest => progressLoop w newStatus rest
  | newStatus, LoopSelect.statusClosed :: _ =>
    (Exit.returned (some (internalError w)), newStatus)
  | newStatus, LoopSelect.status progressStatus :: rest =>
    let newStatus1 := { newStatus with Progress := toInt32 progressStatus.Process }
    if progressStatus.Finish then
      match progressStatus.Err with
      | none => (Exit.returned none, newStatus1)
      | some e => (Exit.returned (some (finishError w e)), newStatus1)
    else progressLoop w newStatus1 rest

/-- Source `doPullImage` (main.go 157-233). The `PullImage` call runs in its own
goroutine; `sched.first` tells which case of the first select fires, and
`pullChan` can fire only once the call has returned `(statusReader, err)`.
`defer statusReader.Close()` on a nil reader panics. -/
def doPullImage (w : pullWorker) (ctx : Context) (newStatus : ImageTagStatus)
    (sched : Schedule) : AttemptResult :=
  match (getImageInfo w ctx).2 with
  | none =>
    { exit := Exit.returned none, status := { newStatus with Progress := 100 },
      pullCalls := 0, deferredClosed := [], teardownClosed := [] }
  | some _ =>
    match w.runtime.PullImage ctx w.name w.tagSpec.Tag with
    | (statusReader, err) =>
      match sched.first with
      | none =>
        { exit := Exit.waiting, status := newStatus, pullCalls := 1,
          deferredClosed := [], teardownClosed := [] }
      | some FirstSelect.stopCh =>
        { exit := Exit.returned (some (stoppedError w)), status := newStatus, pullCalls := 1,
          deferredClosed := [], teardownClosed := closeStatusReader statusReader }
      | some FirstSelect.ctxDone =>
        { exit := Exit.returned (some (canceledError w)), status := newStatus, pullCalls := 1,
          deferredClosed := [], teardownClosed := closeStatusReader statusReader }
      | some FirstSelect.pullChan =>
        match err with
        | some e =>
          { exit := Exit.returned (some e), status := newStatus, pullCalls := 1,
            deferredClosed := [], teardownClosed := [] }
        | none =>
          match statusReader with
          | none =>
            { exit := Exit.panicked, status := newStatus, pullCalls := 1,
              deferredClosed := [], teardownClosed := [] }
          | some reader =>
            match progressLoop w newStatus sched.loop with
            | (Exit.waiting, st) =>
              { exit := Exit.waiting, status := st, pullCalls := 1,
                deferredClosed := [], teardownClosed := [] }
            | (exit, st) =>
              { exit := exit, status := st, pullCalls := 1,
                deferredClosed := [reader], teardownClosed := [] }

/-- A select case of the progress loop after which the loop goes on: a tick of
the log ticker or an event with `Finish` unset. -/
def goesOn : LoopSelect → Bool
  | LoopSelect.logTicker => true
  | LoopSelect.status progressStatus => !progressStatus.Finish
  | _ => false

/-! ## The retry driver -/

/-- The final log line of `Pull`, written by its deferred function
(main.go 120-127): the warning `Worker failed to pull image` with the status
message, or the info line `Successfully pull image`. -/
inductive FinalReport where
  | failed (name tag message : String)
  | succeeded (name tag : String)
deriving DecidableEq, Repr

/-- One attempt as `Pull` makes it: the context passed to `doPullImage`, as it
is when the attempt starts, and how the attempt ended. -/
structure AttemptRecord where
  ctx : Context
  exit : Exit
deriving DecidableEq, Repr

/-- The surroundings of one `Pull` call: the image service obtained from the
factory as it answers during attempt `i` (counted from 0), what the scheduler
delivers to attempt `i`, and the two readings of the clock. -/
structure Factory where
  GetImageService : Nat → ImageService
  schedule : Nat → Schedule
  startTime : Time
  finishTime : Time

/-- The outcome of `Pull`: how it ended, the status record (absent when the
image string does not parse), the attempts made and the final log line. -/
structure PullResult where
  exit : Exit
  status : Option ImageTagStatus
  attempts : List AttemptRecord
  report : Option FinalReport

/-- The constant `backoffLimit` of `Pull` (main.go 128). -/
def backoffLimit : Nat := 3

/-- The worker built by `Pull` (main.go 110-119), with the image service as it
answers during attempt `i`. -/
def newWorker (name tag : String) (f : Factory) (i : Nat) : pullWorker :=
  { name := name, tagSpec := { Tag := tag }, runtime := f.GetImageService i, active := true }

/-- The loop `for i := 0; i <= backoffLimit; i++` of `Pull` (main.go 130-140)
with `remaining = backoffLimit + 1 - i` iterations to go: the exit of `Pull`,
the context, the status record and the attempts made. `cancel()` leaves the
context canceled. -/
def retryLoop (name tag : String) (f : Factory) :
    Nat → Nat → Context → ImageTagStatus → Option Err → List AttemptRecord →
      Exit × Context × ImageTagStatus × List AttemptRecord
  | 0, _, pullContext, newStatus, lastError, attempts =>
    (Exit.returned lastError, pullContext, newStatus, attempts)
  | remaining + 1, i, pullContext, newStatus, _, attempts =>
    let r := doPullImage (newWorker name tag f i) pullContext newStatus (f.schedule i)
    let attempts1 := attempts ++ [{ ctx := pullContext, exit := r.exit }]
    match r.exit with
    | Exit.returned (some lastError) =>
      retryLoop name tag f remaining (i + 1) { canceled := true } r.status (some lastError)
        attempts1
    | Exit.returned none =>
      (Exit.returned none, { canceled := true },
        finishPulling r.status ImagePullPhase.Succeeded "" f.finishTime, attempts1)
    | Exit.panicked => (Exit.panicked, pullContext, r.status, attempts1)
    | Exit.waiting => (Exit.waiting, pullContext, r.status, attempts1)

/-- The deferred function of `Pull` (main.go 120-127). -/
def finalReport (name tag : String) (newStatus : ImageTagStatus) : FinalReport :=
  if newStatus.Phase = ImagePullPhase.Failed then
    FinalReport.failed name tag newStatus.Message
  else
    FinalReport.succeeded name tag

/-- Source `Pull` (main.go 97-143). The deferred report runs when `Pull`
returns or panics. -/
def Pull (image : String) (f : Factory) : PullResult :=
  match parseImageName image with
  | (_, _, some err) =>
    { exit := Exit.returned (some err), status := none, attempts := [], report := none }
  | (name, tag, none) =>
    let pullContext : Context := { canceled := false }
    let newStatus : ImageTagStatus :=
      { Tag := tag, Phase := ImagePullPhase.Pulling, Progress := 0,
        StartTime := some f.startTime, CompletionTime := none, Message := "" }
    match retryLoop name tag f (backoffLimit + 1) 0 pullContext newStatus none [] with
    | (Exit.waiting, _, st, attempts) =>
      { exit := Exit.waiting, status := some st, attempts := attempts, report := none }
    | (exit, _, st, attempts) =>
      { exit := exit, status := some st, attempts := attempts,
        report := some (finalReport name tag st) }

/-- The state of `pullContext` when attempt `i` (from 0) of `Pull` starts: live
for the first attempt, and canceled by the `cancel()` that follows each failed
attempt (main.go 133) for every later one. -/
def contextOfAttempt (i : Nat) : Context :=
  { canceled := decide (0 < i) }

/-! ## Concrete surroundings -/

/-- A reader handle. -/
def reader0 : ImagePullStatusReader := { id := 0 }

/-- An image service with an empty inventory whose `PullImage` fails. -/
def failingService : ImageService :=
  { ListImages := fun _ => ([], none),
    PullImage := fun _ _ _ => (none, some "pull failed") }

/-- An image service whose inventory holds every image. -/
def stockedService : ImageService :=
  { ListImages := fun _ => ([{ ContainsImage := fun _ _ => true }], none),
    PullImage := fun _ _ _ => (none, some "pull failed") }

/-- An image service with an empty inventory whose `PullImage` yields `reader0`. -/
def streamingService : ImageService :=
  { ListImages := fun _ => ([], none),
    PullImage := fun _ _ _ => (some reader0, none) }

/-- A schedule whose first select takes `pullChan`, with the given loop cases. -/
def afterPull (loop : List LoopSelect) : Schedule :=
  { first := some FirstSelect.pullChan, loop := loop }

/-- A backend that fails every attempt. -/
def failingFactory : Factory :=
  { GetImageService := fun _ => failingService,
    schedule := fun _ => afterPull [],
    startTime := 0, finishTime := 1 }

/-- A backend that fails twice and has the image from the third attempt on. -/
def thirdTimeFactory : Factory :=
  { GetImageService := fun i => if i < 2 then failingService else stockedService,
    schedule := fun _ => afterPull [],
    startTime := 0, finishTime := 1 }

/-- A progress event. -/
def progressEvent (percent : Int) (finished : Bool) (err : Option Err) : ImagePullStatus :=
  { Err := err, Process := percent, DetailInfo := "", Finish := finished }

/-- A worker for the image `a:b` over `streamingService`. -/
def streamingWorker : pullWorker :=
  { name := "a", tagSpec := { Tag := "b" }, runtime := streamingService, active := true }

/-- A worker for the image `a:b` over `stockedService`. -/
def stockedWorker : pullWorker :=
  { name := "a", tagSpec := { Tag := "b" }, runtime := stockedService, active := true }

/-- A fresh status record for the tag `b`. -/
def status0 : ImageTagStatus :=
  { Tag := "b", Phase := ImagePullPhase.Pulling, Progress := 0, StartTime := some 0,
    CompletionTime := none, Message := "" }

/-! # Theorems -/

/-! ## The image reference parser -/

theorem cutAt_eq (sep : Char) (l : List Char) :
    cutAt sep l =
      if l.any (fun c => c == sep) then
        some (l.takeWhile (fun c => c != sep), (l.dropWhile (fun c => c != sep)).drop 1)
      else none := by
  induction l with
  | nil => simp [cutAt]
  | cons c cs ih =>
    by_cases h : c = sep
    · subst h
      simp [cutAt, List.takeWhile, List.dropWhile]
    · have h2 : (c == sep) = false := by simpa using h
      have h3 : (c != sep) = true := by simp [bne, h2]
      simp only [cutAt, if_neg h, ih, List.any_cons, h2, Bool.false_or, List.takeWhile_cons,
        List.dropWhile_cons, h3, if_true]
      split <;> simp_all

theorem string_eq_empty_iff (s : String) : s = "" ↔ s.data = [] := by
  constructor
  · intro h; subst h; rfl
  · intro h
    cases s
    simp_all

theorem cutAt_append_sep (sep : Char) (a b : List Char) (ha : ∀ c ∈ a, c ≠ sep) :
    cutAt sep (a ++ sep :: b) = some (a, b) := by
  induction a with
  | nil => simp [cutAt]
  | cons c cs ih =>
    have hc : c ≠ sep := ha c (List.mem_cons_self c cs)
    have ih2 := ih (fun x hx => ha x (List.mem_cons_of_mem c hx))
    simp [cutAt, hc, ih2]

theorem cutAt_none_of_absent (sep : Char) (a : List Char) (ha : ∀ c ∈ a, c ≠ sep) :
    cutAt sep a = none := by
  induction a with
  | nil => simp [cutAt]
  | cons c cs ih =>
    have hc : c ≠ sep := ha c (List.mem_cons_self c cs)
    have ih2 := ih (fun x hx => ha x (List.mem_cons_of_mem c hx))
    simp [cutAt, hc, ih2]

theorem parseImageName_of_nonempty (s : String) (hs : textBeforeColon s ≠ "") :
    parseImageName s = ((referenceSplit s).1, (referenceSplit s).2, none) := by
  have hd : s.data.takeWhile (fun c => c != ':') ≠ [] := by
    intro h
    apply hs
    simp [textBeforeColon, h]
  unfold parseImageName Cut referenceSplit
  rw [cutAt_eq]
  by_cases hc : s.data.any (fun c => c == ':') = true
  · have hne : String.mk (s.data.takeWhile (fun c => c != ':')) ≠ "" := by
      rw [Ne, string_eq_empty_iff]; exact hd
    simp only [hc, if_true, hasColon, textBeforeColon, textAfterColon, Bool.not_true,
      Bool.false_eq_true, if_false, if_neg hne, Bool.true_and]
    split <;> simp_all
  · have hc2 : s.data.any (fun c => c == ':') = false := Bool.eq_false_iff.mpr hc
    have htw : s.data.takeWhile (fun c => c != ':') = s.data := by
      rw [List.takeWhile_eq_self_iff]
      intro c hcm
      rw [List.any_eq_false] at hc2
      have := hc2 c hcm
      simpa [bne] using this
    simp [hc2, hasColon, textBeforeColon, htw]

theorem parseImageName_colon_free (repo : String) (hc : hasColon repo = false) :
    parseImageName repo = (repo, "latest", none) := by
  have ha : ∀ c ∈ repo.data, c ≠ ':' := by
    simpa [hasColon] using hc
  simp [parseImageName, Cut, cutAt_none_of_absent ':' repo.data ha]

theorem parseImageName_with_tag (repo tag : String) (hr : repo ≠ "")
    (hc : hasColon repo = false) :
    parseImageName (repo ++ ":" ++ tag) = (repo, if tag = "" then "latest" else tag, none) := by
  have ha : ∀ c ∈ repo.data, c ≠ ':' := by
    simpa [hasColon] using hc
  have hdata : (repo ++ ":" ++ tag).data = repo.data ++ ':' :: tag.data := by
    simp [String.data_append]
  unfold parseImageName Cut
  rw [hdata, cutAt_append_sep ':' repo.data tag.data ha]
  simp only [Bool.not_true, Bool.false_eq_true, if_false]
  have h1 : String.mk repo.data = repo := rfl
  have h2 : String.mk tag.data = tag := rfl
  rw [h1, h2, if_neg hr]
  split <;> simp_all

/-- C4. `parseImageName` equals the reference split: for every input whose
text before the first `:` (the whole input when it has no `:`) is not empty,
parsing succeeds with that text as the name and, as the tag, the text after the
first `:` when a `:` is present and that text is not empty, `latest` otherwise.
Hence for a colon-free, non-empty `repo`, the inputs `repo` and `repo:` both
give `(repo, latest)`, and for a non-empty `tag` the input `repo:tag` gives
exactly `(repo, tag)`, so that name, `:` and tag put together give the input. -/
theorem parseImageName_eq_referenceSplit (s repo tag : String)
    (hs : textBeforeColon s ≠ "") (hr : repo ≠ "") (hc : hasColon repo = false)
    (ht : tag ≠ "") :
    parseImageName s = ((referenceSplit s).1, (referenceSplit s).2, none)
    ∧ (referenceSplit s).1 = textBeforeColon s
    ∧ ((hasColon s = true ∧ textAfterColon s ≠ "") → (referenceSplit s).2 = textAfterColon s)
    ∧ (¬ (hasColon s = true ∧ textAfterColon s ≠ "") → (referenceSplit s).2 = "latest")
    ∧ parseImageName repo = (repo, "latest", none)
    ∧ parseImageName (repo ++ ":") = (repo, "latest", none)
    ∧ parseImageName (repo ++ ":" ++ tag) = (repo, tag, none)
    ∧ (parseImageName (repo ++ ":" ++ tag)).1 ++ ":" ++ (parseImageName (repo ++ ":" ++ tag)).2.1
        = repo ++ ":" ++ tag := by
  have h3 := parseImageName_with_tag repo tag hr hc
  rw [if_neg ht] at h3
  have h2 := parseImageName_with_tag repo "" hr hc
  refine ⟨parseImageName_of_nonempty s hs, rfl, ?_, ?_, parseImageName_colon_free repo hc,
    ?_, h3, ?_⟩
  · intro h
    simp [referenceSplit, h.1, h.2]
  · intro h
    by_cases h1 : hasColon s = true
    · have h4 : textAfterColon s = "" := by
        by_contra h5
        exact h ⟨h1, h5⟩
      simp [referenceSplit, h4]
    · simp [referenceSplit, h1]
  · simpa using h2
  · rw [h3]

/-- A witness of C4: the input `registry/app:1.2:x` with `repo = redis` and
`tag = alpine`. -/
theorem parseImageName_eq_referenceSplit_witness :
    parseImageName "registry/app:1.2:x" = ("registry/app", "1.2:x", none)
    ∧ parseImageName "redis" = ("redis", "latest", none)
    ∧ parseImageName "redis:" = ("redis", "latest", none)
    ∧ parseImageName "redis:alpine" = ("redis", "alpine", none) :=
  have h := parseImageName_eq_referenceSplit "registry/app:1.2:x" "redis" "alpine"
    (by decide) (by decide) (by decide) (by decide)
  ⟨h.1, h.2.2.2.2.1, h.2.2.2.2.2.1, h.2.2.2.2.2.2.1⟩

/-- C5, the failing input. The empty string has no `:` and an empty name
portion, yet `parseImageName` accepts it and returns the empty name with the
tag `latest`; the input `:tag` is rejected. -/
theorem parseImageName_empty_accepted :
    parseImageName "" = ("", "latest", none)
    ∧ textBeforeColon "" = ""
    ∧ (parseImageName ":tag").2.2 = some "Invalid image name \":tag\", empty name" := by
  decide

theorem parseImageName_error_iff (s : String) :
    (parseImageName s).2.2 ≠ none ↔ (textBeforeColon s = "" ∧ s ≠ "") := by
  unfold parseImageName Cut textBeforeColon
  rw [cutAt_eq]
  by_cases hc : s.data.any (fun c => c == ':') = true
  · have hne : s ≠ "" := by
      intro h
      subst h
      simp at hc
    simp only [hc, if_true, Bool.not_true, Bool.false_eq_true, if_false]
    by_cases h1 : String.mk (s.data.takeWhile (fun c => c != ':')) = ""
    · simp [h1, hne]
    · simp only [if_neg h1]
      split <;> simp_all
  · have hc2 : s.data.any (fun c => c == ':') = false := Bool.eq_false_iff.mpr hc
    have htw : s.data.takeWhile (fun c => c != ':') = s.data := by
      rw [List.takeWhile_eq_self_iff]
      intro c hcm
      rw [List.any_eq_false] at hc2
      have := hc2 c hcm
      simpa [bne] using this
    simp only [hc2, htw]
    simp

/-! ## One attempt: `doPullImage` -/

theorem getImageInfo_found (w : pullWorker) (ctx : Context) (infos : List ImageInfo)
    (hlist : w.runtime.ListImages ctx = (infos, none))
    (hin : ∃ info ∈ infos, info.ContainsImage w.name w.tagSpec.Tag = true) :
    (getImageInfo w ctx).2 = none := by
  unfold getImageInfo
  rw [hlist]
  simp only
  cases hfind : infos.find? (fun info => info.ContainsImage w.name w.tagSpec.Tag) with
  | some info => rfl
  | none =>
    exfalso
    rw [List.find?_eq_none] at hfind
    obtain ⟨info, hmem, htrue⟩ := hin
    exact hfind info hmem htrue

theorem doPullImage_after_pull (w : pullWorker) (ctx : Context) (newStatus : ImageTagStatus)
    (reader : ImagePullStatusReader) (loop : List LoopSelect)
    (habsent : (getImageInfo w ctx).2 ≠ none)
    (hpull : w.runtime.PullImage ctx w.name w.tagSpec.Tag = (some reader, none)) :
    (doPullImage w ctx newStatus (afterPull loop)).exit = (progressLoop w newStatus loop).1
    ∧ (doPullImage w ctx newStatus (afterPull loop)).status = (progressLoop w newStatus loop).2
    ∧ (doPullImage w ctx newStatus (afterPull loop)).teardownClosed = []
    ∧ (doPullImage w ctx newStatus (afterPull loop)).deferredClosed =
        (if (progressLoop w newStatus loop).1 = Exit.waiting then [] else [reader]) := by
  unfold doPullImage
  cases hg : (getImageInfo w ctx).2 with
  | none => exact absurd hg habsent
  | some e =>
    simp only [hpull, afterPull]
    split <;> simp_all

theorem progressLoop_goesOn (w : pullWorker) (pre rest : List LoopSelect)
    (hpre : pre.all goesOn = true) (newStatus : ImageTagStatus) :
    ∃ st, progressLoop w newStatus (pre ++ rest) = progressLoop w st rest := by
  induction pre generalizing newStatus with
  | nil => exact ⟨newStatus, rfl⟩
  | cons x xs ih =>
    rw [List.all_cons, Bool.and_eq_true] at hpre
    cases x with
    | stopCh => simp [goesOn] at hpre
    | ctxDone => simp [goesOn] at hpre
    | statusClosed => simp [goesOn] at hpre
    | logTicker =>
      simp only [List.cons_append, progressLoop]
      exact ih hpre.2 newStatus
    | status p =>
      have hp : p.Finish = false := by simpa [goesOn] using hpre.1
      simp only [List.cons_append, progressLoop, hp]
      exact ih hpre.2 _

theorem progressLoop_status_progress (w : pullWorker) (p : ImagePullStatus)
    (rest : List LoopSelect) (hrest : p.Finish = true ∨ rest = [])
    (newStatus : ImageTagStatus) :
    (progressLoop w newStatus (LoopSelect.status p :: rest)).2.Progress = toInt32 p.Process := by
  simp only [progressLoop]
  cases hf : p.Finish with
  | true =>
    simp only [if_true]
    cases p.Err <;> rfl
  | false =>
    rcases hrest with h | h
    · rw [hf] at h; cases h
    · subst h
      simp [progressLoop]

theorem all_goesOn_of_split (pre a b : List LoopSelect) (x y : LoopSelect)
    (hpre : pre.all goesOn = true) (h : pre ++ [x] = a ++ y :: b) :
    a.all goesOn = true := by
  induction pre generalizing a with
  | nil =>
    cases a with
    | nil => rfl
    | cons a0 as =>
      simp only [List.nil_append, List.cons_append, List.cons.injEq] at h
      have := h.2
      cases as <;> simp at this
  | cons z zs ih =>
    rw [List.all_cons, Bool.and_eq_true] at hpre
    cases a with
    | nil => rfl
    | cons a0 as =>
      simp only [List.cons_append, List.cons.injEq] at h
      rw [List.all_cons, Bool.and_eq_true]
      exact ⟨h.1 ▸ hpre.1, ih as hpre.2 h.2⟩

/-- C3. Short-circuit on presence: when `ListImages` succeeds with an inventory
holding an entry for which `ContainsImage(name, tag)` is true, `doPullImage`
returns nil, leaves `status.Progress` at 100 and never invokes `PullImage`,
whatever the context, the status record and the schedule are. -/
theorem doPullImage_short_circuit (w : pullWorker) (ctx : Context)
    (newStatus : ImageTagStatus) (sched : Schedule) (infos : List ImageInfo)
    (hlist : w.runtime.ListImages ctx = (infos, none))
    (hin : ∃ info ∈ infos, info.ContainsImage w.name w.tagSpec.Tag = true) :
    (doPullImage w ctx newStatus sched).exit = Exit.returned none
    ∧ (doPullImage w ctx newStatus sched).status.Progress = 100
    ∧ (doPullImage w ctx newStatus sched).pullCalls = 0 := by
  have hg := getImageInfo_found w ctx infos hlist hin
  unfold doPullImage
  rw [hg]
  exact ⟨rfl, rfl, rfl⟩

/-- A witness of C3: the image `a:b` over an inventory that holds it, with a
canceled context whose `Done()` is ready at the first select. -/
theorem doPullImage_short_circuit_witness :
    (doPullImage stockedWorker { canceled := true } status0
        { first := some FirstSelect.ctxDone, loop := [] }).exit = Exit.returned none
    ∧ (doPullImage stockedWorker { canceled := true } status0
        { first := some FirstSelect.ctxDone, loop := [] }).status.Progress = 100
    ∧ (doPullImage stockedWorker { canceled := true } status0
        { first := some FirstSelect.ctxDone, loop := [] }).pullCalls = 0 :=
  doPullImage_short_circuit stockedWorker { canceled := true } status0
    { first := some FirstSelect.ctxDone, loop := [] }
    [{ ContainsImage := fun _ _ => true }] rfl
    ⟨{ ContainsImage := fun _ _ => true }, List.mem_singleton.mpr rfl, rfl⟩

theorem toInt32_of_fits (x : Int) (hlo : -2147483648 ≤ x) (hhi : x < 2147483648) :
    toInt32 x = x := by
  unfold toInt32
  omega

/-- C6, as stated, fails: with the image absent, the invocation successful and
neither stop nor cancel, the stream made of the event with percent 2147483648
and `Finish` unset followed by a successful terminal event makes `doPullImage`
return nil, and right after the first event `status.Progress` is -2147483648,
not the percent of that event. -/
theorem doPullImage_progress_truncated :
    (getImageInfo streamingWorker { canceled := false }).2 ≠ none
    ∧ streamingWorker.runtime.PullImage { canceled := false } "a" "b" = (some reader0, none)
    ∧ (doPullImage streamingWorker { canceled := false } status0
        (afterPull [LoopSelect.status (progressEvent 2147483648 false none),
          LoopSelect.status (progressEvent 100 true none)])).exit = Exit.returned none
    ∧ (doPullImage streamingWorker { canceled := false } status0
        (afterPull [LoopSelect.status (progressEvent 2147483648 false none)])).status.Progress
        = -2147483648
    ∧ (doPullImage streamingWorker { canceled := false } status0
        (afterPull [LoopSelect.status (progressEvent 2147483648 false none)])).status.Progress
        ≠ (progressEvent 2147483648 false none).Process := by
  decide

/-- C6, amended. With the image absent, the invocation successful and a
schedule in which neither the stop signal nor the context fires before it,
events with `Finish` unset (and log ticks) followed by an event with `Finish`
set and no error make `doPullImage` return nil; right after each received
event `status.Progress` is that event's percent converted to `int32`, which is
the percent itself whenever it fits in 32 signed bits. -/
theorem doPullImage_progress_stream (w : pullWorker) (ctx : Context)
    (newStatus : ImageTagStatus) (reader : ImagePullStatusReader) (pre rest : List LoopSelect)
    (fin : ImagePullStatus)
    (habsent : (getImageInfo w ctx).2 ≠ none)
    (hpull : w.runtime.PullImage ctx w.name w.tagSpec.Tag = (some reader, none))
    (hpre : pre.all goesOn = true) (hfin : fin.Finish = true) (herr : fin.Err = none) :
    (doPullImage w ctx newStatus (afterPull (pre ++ LoopSelect.status fin :: rest))).exit
        = Exit.returned none
    ∧ (doPullImage w ctx newStatus
        (afterPull (pre ++ LoopSelect.status fin :: rest))).status.Progress = toInt32 fin.Process
    ∧ (∀ a p b, pre ++ [LoopSelect.status fin] = a ++ LoopSelect.status p :: b →
        (doPullImage w ctx newStatus (afterPull (a ++ [LoopSelect.status p]))).status.Progress
          = toInt32 p.Process)
    ∧ (∀ x : Int, -2147483648 ≤ x → x < 2147483648 → toInt32 x = x) := by
  obtain ⟨st, hst⟩ := progressLoop_goesOn w pre (LoopSelect.status fin :: rest) hpre newStatus
  have hrun := doPullImage_after_pull w ctx newStatus reader
    (pre ++ LoopSelect.status fin :: rest) habsent hpull
  refine ⟨?_, ?_, ?_, toInt32_of_fits⟩
  · rw [hrun.1, hst]
    simp [progressLoop, hfin, herr]
  · rw [hrun.2.1, hst]
    exact progressLoop_status_progress w fin rest (Or.inl hfin) st
  · intro a p b hsplit
    have ha := all_goesOn_of_split pre a b _ _ hpre hsplit
    obtain ⟨st2, hst2⟩ := progressLoop_goesOn w a [LoopSelect.status p] ha newStatus
    rw [(doPullImage_after_pull w ctx newStatus reader (a ++ [LoopSelect.status p])
      habsent hpull).2.1, hst2]
    exact progressLoop_status_progress w p [] (Or.inr rfl) st2

/-- A witness of C6: the stream of the specification, percent 40 unfinished
and then a successful terminal event, with a log tick in between. -/
theorem doPullImage_progress_stream_witness :
    (doPullImage streamingWorker { canceled := false } status0
        (afterPull [LoopSelect.status (progressEvent 40 false none), LoopSelect.logTicker,
          LoopSelect.status (progressEvent 100 true none)])).exit = Exit.returned none
    ∧ (doPullImage streamingWorker { canceled := false } status0
        (afterPull [LoopSelect.status (progressEvent 40 false none)])).status.Progress = 40 :=
  have h := doPullImage_progress_stream streamingWorker { canceled := false } status0 reader0
    [LoopSelect.status (progressEvent 40 false none), LoopSelect.logTicker] []
    (progressEvent 100 true none) (by decide) rfl (by decide) rfl rfl
  ⟨h.1, h.2.2.1 [] (progressEvent 40 false none)
    [LoopSelect.logTicker, LoopSelect.status (progressEvent 100 true none)] rfl⟩

/-- C7, as stated, fails: the terminal event with the error `boom` makes
`doPullImage` on the image `a:b` return a new error with the message
`pulling image a:b error boom`, not the error `boom` of the event. -/
theorem doPullImage_finish_error_wrapped :
    (getImageInfo streamingWorker { canceled := false }).2 ≠ none
    ∧ streamingWorker.runtime.PullImage { canceled := false } "a" "b" = (some reader0, none)
    ∧ (doPullImage streamingWorker { canceled := false } status0
        (afterPull [LoopSelect.status (progressEvent 100 true (some "boom"))])).exit
        = Exit.returned (some "pulling image a:b error boom")
    ∧ (doPullImage streamingWorker { canceled := false } status0
        (afterPull [LoopSelect.status (progressEvent 100 true (some "boom"))])).exit
        ≠ Exit.returned (progressEvent 100 true (some "boom")).Err := by
  decide

/-- C7, amended. When the progress loop receives an event with `Finish` set and
an error `e`, with no stop, cancel or channel close before it, `doPullImage`
returns a new non-nil error whose message is `pulling image <name>:<tag> error`
followed by the message of `e`. -/
theorem doPullImage_finish_error (w : pullWorker) (ctx : Context)
    (newStatus : ImageTagStatus) (reader : ImagePullStatusReader) (pre rest : List LoopSelect)
    (fin : ImagePullStatus) (e : Err)
    (habsent : (getImageInfo w ctx).2 ≠ none)
    (hpull : w.runtime.PullImage ctx w.name w.tagSpec.Tag = (some reader, none))
    (hpre : pre.all goesOn = true) (hfin : fin.Finish = true) (herr : fin.Err = some e) :
    (doPullImage w ctx newStatus (afterPull (pre ++ LoopSelect.status fin :: rest))).exit
      = Exit.returned (some ("pulling image " ++ w.name ++ ":" ++ w.tagSpec.Tag ++ " error " ++ e))
    := by
  obtain ⟨st, hst⟩ := progressLoop_goesOn w pre (LoopSelect.status fin :: rest) hpre newStatus
  rw [(doPullImage_after_pull w ctx newStatus reader (pre ++ LoopSelect.status fin :: rest)
    habsent hpull).1, hst]
  simp [progressLoop, hfin, herr, finishError]

/-- A witness of C7: an unfinished event and then the terminal event with the
error `boom`, for the image `a:b`. -/
theorem doPullImage_finish_error_witness :
    (doPullImage streamingWorker { canceled := false } status0
        (afterPull [LoopSelect.status (progressEvent 40 false none),
          LoopSelect.status (progressEvent 40 true (some "boom"))])).exit
      = Exit.returned (some "pulling image a:b error boom") :=
  doPullImage_finish_error streamingWorker { canceled := false } status0 reader0
    [LoopSelect.status (progressEvent 40 false none)] [] (progressEvent 40 true (some "boom"))
    "boom" (by decide) rfl (by decide) rfl rfl

/-- C8. Stream protocol error: with the image absent, the invocation successful
and no stop or cancel, a status channel that is closed after zero or more
events none of which has `Finish` set makes `doPullImage` return the non-nil
error `pulling image <name>:<tag> internal error`, and so never success. -/
theorem doPullImage_stream_closed (w : pullWorker) (ctx : Context)
    (newStatus : ImageTagStatus) (reader : ImagePullStatusReader) (pre rest : List LoopSelect)
    (habsent : (getImageInfo w ctx).2 ≠ none)
    (hpull : w.runtime.PullImage ctx w.name w.tagSpec.Tag = (some reader, none))
    (hpre : pre.all goesOn = true) :
    (doPullImage w ctx newStatus (afterPull (pre ++ LoopSelect.statusClosed :: rest))).exit
      = Exit.returned (some ("pulling image " ++ w.name ++ ":" ++ w.tagSpec.Tag
          ++ " internal error"))
    ∧ (doPullImage w ctx newStatus (afterPull (pre ++ LoopSelect.statusClosed :: rest))).exit
      ≠ Exit.returned none := by
  obtain ⟨st, hst⟩ := progressLoop_goesOn w pre (LoopSelect.statusClosed :: rest) hpre newStatus
  rw [(doPullImage_after_pull w ctx newStatus reader (pre ++ LoopSelect.statusClosed :: rest)
    habsent hpull).1, hst]
  simp [progressLoop, internalError]

/-- A witness of C8: the channel of the image `a:b` is closed after one
unfinished event. -/
theorem doPullImage_stream_closed_witness :
    (doPullImage streamingWorker { canceled := false } status0
        (afterPull [LoopSelect.status (progressEvent 40 false none),
          LoopSelect.statusClosed])).exit
      = Exit.returned (some "pulling image a:b internal error") :=
  (doPullImage_stream_closed streamingWorker { canceled := false } status0 reader0
    [LoopSelect.status (progressEvent 40 false none)] [] (by decide) rfl (by decide)).1

/-- C10. No stream leak: once the pull has been launched (the image is absent)
and `PullImage` yields a status stream without error, every return of
`doPullImage` has that stream closed exactly once: by the deferred close when
the first select took `pullChan` (every exit of the progress loop), and by the
background `closeStatusReader` when stop or cancel won the first select. When
the invocation fails without a stream, nothing is closed. -/
theorem doPullImage_closes_reader (w : pullWorker) (ctx : Context)
    (newStatus : ImageTagStatus) (sched : Schedule)
    (habsent : (getImageInfo w ctx).2 ≠ none) :
    (doPullImage w ctx newStatus sched).pullCalls = 1
    ∧ (∀ reader, w.runtime.PullImage ctx w.name w.tagSpec.Tag = (some reader, none) →
        ∀ err, (doPullImage w ctx newStatus sched).exit = Exit.returned err →
          (sched.first = some FirstSelect.pullChan →
            (doPullImage w ctx newStatus sched).deferredClosed = [reader]
            ∧ (doPullImage w ctx newStatus sched).teardownClosed = [])
          ∧ (sched.first ≠ some FirstSelect.pullChan →
            (doPullImage w ctx newStatus sched).deferredClosed = []
            ∧ (doPullImage w ctx newStatus sched).teardownClosed = [reader]))
    ∧ (∀ e, w.runtime.PullImage ctx w.name w.tagSpec.Tag = (none, some e) →
        (doPullImage w ctx newStatus sched).deferredClosed = []
        ∧ (doPullImage w ctx newStatus sched).teardownClosed = []) := by
  obtain ⟨first, loop⟩ := sched
  unfold doPullImage
  cases hg : (getImageInfo w ctx).2 with
  | none => exact absurd hg habsent
  | some e0 =>
    cases hp : w.runtime.PullImage ctx w.name w.tagSpec.Tag with
    | mk statusReader err =>
      simp only
      refine ⟨?_, ?_, ?_⟩
      · rcases first with _ | _ | _ | _
        · rfl
        · rfl
        · rfl
        · simp only
          rcases err with _ | e
          · rcases statusReader with _ | reader
            · rfl
            · simp only
              split <;> rfl
          · rfl
      · intro reader hpull err1
        cases hpull
        rcases first with _ | _ | _ | _
        · simp
        · simp [closeStatusReader]
        · simp [closeStatusReader]
        · simp only
          cases hl : progressLoop w newStatus loop with
          | mk exit st =>
            cases exit <;> simp
      · intro e hpull
        cases hpull
        rcases first with _ | _ | _ | _ <;> simp [closeStatusReader]

/-- A witness of C10: for the image `a:b`, the canceled context wins the first
select before the invocation completes, and the background teardown closes the
stream `reader0` that the invocation yields. -/
theorem doPullImage_closes_reader_witness :
    (doPullImage streamingWorker { canceled := true } status0
        { first := some FirstSelect.ctxDone, loop := [] }).deferredClosed = []
    ∧ (doPullImage streamingWorker { canceled := true } status0
        { first := some FirstSelect.ctxDone, loop := [] }).teardownClosed = [reader0] :=
  ((doPullImage_closes_reader streamingWorker { canceled := true } status0
    { first := some FirstSelect.ctxDone, loop := [] } (by decide)).2.1 reader0 rfl
    (some "pulling image a:b is canceled") (by decide)).2 (by decide)

/-! ## The retry driver: `Pull` -/

theorem retryLoop_failed (name tag : String) (f : Factory) (remaining i : Nat)
    (pullContext : Context) (newStatus : ImageTagStatus) (lastError : Option Err)
    (attempts : List AttemptRecord) (e : Err)
    (h : (doPullImage (newWorker name tag f i) pullContext newStatus (f.schedule i)).exit
      = Exit.returned (some e)) :
    retryLoop name tag f (remaining + 1) i pullContext newStatus lastError attempts =
      retryLoop name tag f remaining (i + 1) { canceled := true }
        (doPullImage (newWorker name tag f i) pullContext newStatus (f.schedule i)).status
        (some e) (attempts ++ [{ ctx := pullContext, exit := Exit.returned (some e) }]) := by
  simp only [retryLoop, h]

theorem retryLoop_succeeded (name tag : String) (f : Factory) (remaining i : Nat)
    (pullContext : Context) (newStatus : ImageTagStatus) (lastError : Option Err)
    (attempts : List AttemptRecord)
    (h : (doPullImage (newWorker name tag f i) pullContext newStatus (f.schedule i)).exit
      = Exit.returned none) :
    retryLoop name tag f (remaining + 1) i pullContext newStatus lastError attempts =
      (Exit.returned none, { canceled := true },
        finishPulling
          (doPullImage (newWorker name tag f i) pullContext newStatus (f.schedule i)).status
          ImagePullPhase.Succeeded "" f.finishTime,
        attempts ++ [{ ctx := pullContext, exit := Exit.returned none }]) := by
  simp only [retryLoop, h]

theorem Pull_of_retryLoop (image name tag : String) (f : Factory)
    (hparse : parseImageName image = (name, tag, none)) :
    (Pull image f).exit =
        (retryLoop name tag f (backoffLimit + 1) 0 { canceled := false }
          { Tag := tag, Phase := ImagePullPhase.Pulling, Progress := 0,
            StartTime := some f.startTime, CompletionTime := none, Message := "" }
          none []).1
    ∧ (Pull image f).attempts =
        (retryLoop name tag f (backoffLimit + 1) 0 { canceled := false }
          { Tag := tag, Phase := ImagePullPhase.Pulling, Progress := 0,
            StartTime := some f.startTime, CompletionTime := none, Message := "" }
          none []).2.2.2 := by
  unfold Pull
  rw [hparse]
  simp only
  split <;> simp_all

theorem progressLoop_keeps_phase (w : pullWorker) (loop : List LoopSelect)
    (newStatus : ImageTagStatus) :
    (progressLoop w newStatus loop).2.Phase = newStatus.Phase
    ∧ (progressLoop w newStatus loop).2.CompletionTime = newStatus.CompletionTime := by
  induction loop generalizing newStatus with
  | nil => exact ⟨rfl, rfl⟩
  | cons x xs ih =>
    cases x with
    | stopCh => exact ⟨rfl, rfl⟩
    | ctxDone => exact ⟨rfl, rfl⟩
    | statusClosed => exact ⟨rfl, rfl⟩
    | logTicker =>
      simp only [progressLoop]
      exact ih newStatus
    | status p =>
      simp only [progressLoop]
      cases hf : p.Finish with
      | true =>
        simp only [if_true]
        cases p.Err <;> exact ⟨rfl, rfl⟩
      | false =>
        simp only [Bool.false_eq_true, if_false]
        exact ih _

theorem doPullImage_keeps_phase (w : pullWorker) (ctx : Context) (newStatus : ImageTagStatus)
    (sched : Schedule) :
    (doPullImage w ctx newStatus sched).status.Phase = newStatus.Phase
    ∧ (doPullImage w ctx newStatus sched).status.CompletionTime = newStatus.CompletionTime := by
  obtain ⟨first, loop⟩ := sched
  have hloop := progressLoop_keeps_phase w loop newStatus
  unfold doPullImage
  cases hg : (getImageInfo w ctx).2 with
  | none => exact ⟨rfl, rfl⟩
  | some e0 =>
    cases hp : w.runtime.PullImage ctx w.name w.tagSpec.Tag with
    | mk statusReader err =>
      simp only
      rcases first with _ | _ | _ | _
      · exact ⟨rfl, rfl⟩
      · exact ⟨rfl, rfl⟩
      · exact ⟨rfl, rfl⟩
      · simp only
        rcases err with _ | e
        · rcases statusReader with _ | reader
          · exact ⟨rfl, rfl⟩
          · simp only
            cases hl : progressLoop w newStatus loop with
            | mk exit st =>
              rw [hl] at hloop
              cases exit <;> exact hloop
        · exact ⟨rfl, rfl⟩

theorem retryLoop_phase (name tag : String) (f : Factory) (remaining : Nat) :
    ∀ (i : Nat) (pullContext : Context) (newStatus : ImageTagStatus) (lastError : Option Err)
      (attempts : List AttemptRecord),
      ((retryLoop name tag f remaining i pullContext newStatus lastError attempts).1
          = Exit.returned none
        ∧ (retryLoop name tag f remaining i pullContext newStatus lastError
            attempts).2.2.1.Phase = ImagePullPhase.Succeeded
        ∧ (retryLoop name tag f remaining i pullContext newStatus lastError
            attempts).2.2.1.CompletionTime = some f.finishTime)
      ∨ ((retryLoop name tag f remaining i pullContext newStatus lastError
            attempts).2.2.1.Phase = newStatus.Phase
        ∧ (retryLoop name tag f remaining i pullContext newStatus lastError
            attempts).2.2.1.CompletionTime = newStatus.CompletionTime
        ∧ ((retryLoop name tag f remaining i pullContext newStatus lastError attempts).1
            = Exit.returned none → lastError = none ∧ remaining = 0)) := by
  induction remaining with
  | zero =>
    intro i pullContext newStatus lastError attempts
    right
    simp only [retryLoop]
    refine ⟨trivial, trivial, ?_⟩
    intro h
    cases h
    exact ⟨rfl, trivial⟩
  | succ n ih =>
    intro i pullContext newStatus lastError attempts
    have hk := doPullImage_keeps_phase (newWorker name tag f i) pullContext newStatus
      (f.schedule i)
    cases hex : (doPullImage (newWorker name tag f i) pullContext newStatus
        (f.schedule i)).exit with
    | returned err =>
      cases err with
      | none =>
        rw [retryLoop_succeeded _ _ _ _ _ _ _ _ _ hex]
        exact Or.inl ⟨rfl, rfl, rfl⟩
      | some e =>
        rw [retryLoop_failed _ _ _ _ _ _ _ _ _ e hex]
        rcases ih (i + 1) { canceled := true }
          (doPullImage (newWorker name tag f i) pullContext newStatus (f.schedule i)).status
          (some e) (attempts ++ [{ ctx := pullContext, exit := Exit.returned (some e) }])
          with h | ⟨h2, h3, h4⟩
        · exact Or.inl h
        · right
          refine ⟨h2.trans hk.1, h3.trans hk.2, ?_⟩
          intro hnil
          have := (h4 hnil).1
          cases this
    | panicked =>
      right
      simp only [retryLoop, hex]
      refine ⟨hk.1, hk.2, ?_⟩
      intro h
      cases h
    | waiting =>
      right
      simp only [retryLoop, hex]
      refine ⟨hk.1, hk.2, ?_⟩
      intro h
      cases h

/-- The warning branch of the deferred report of `Pull` is never taken: the
phase of the status is `Pulling` or `Succeeded`, so whenever `Pull` writes its
final log line it is the success report; and the status is finalized to
`Succeeded` with a completion time exactly when `Pull` returns nil. -/
theorem Pull_never_reports_failure (image name tag : String) (f : Factory)
    (hparse : parseImageName image = (name, tag, none)) :
    (∀ n t m, (Pull image f).report ≠ some (FinalReport.failed n t m))
    ∧ ∃ st, (Pull image f).status = some st
      ∧ ((Pull image f).exit = Exit.returned none →
          st.Phase = ImagePullPhase.Succeeded ∧ st.CompletionTime = some f.finishTime)
      ∧ ((Pull image f).exit ≠ Exit.returned none →
          st.Phase = ImagePullPhase.Pulling ∧ st.CompletionTime = none) := by
  have h := retryLoop_phase name tag f (backoffLimit + 1) 0 { canceled := false }
    { Tag := tag, Phase := ImagePullPhase.Pulling, Progress := 0,
      StartTime := some f.startTime, CompletionTime := none, Message := "" } none []
  unfold Pull
  rw [hparse]
  simp only
  cases hr : retryLoop name tag f (backoffLimit + 1) 0 { canceled := false }
    { Tag := tag, Phase := ImagePullPhase.Pulling, Progress := 0,
      StartTime := some f.startTime, CompletionTime := none, Message := "" } none [] with
  | mk exit rest =>
    obtain ⟨c, st, attempts⟩ := rest
    rw [hr] at h
    simp only at h
    have hphase : st.Phase ≠ ImagePullPhase.Failed := by
      rcases h with ⟨_, h2, _⟩ | ⟨h2, _⟩
      · rw [h2]; decide
      · rw [h2]; decide
    have hsucc : exit = Exit.returned none →
        st.Phase = ImagePullPhase.Succeeded ∧ st.CompletionTime = some f.finishTime := by
      intro hnil
      rcases h with ⟨_, h2, h3⟩ | ⟨_, _, h4⟩
      · exact ⟨h2, h3⟩
      · exact absurd (h4 hnil).2 (by decide)
    have hfail : exit ≠ Exit.returned none →
        st.Phase = ImagePullPhase.Pulling ∧ st.CompletionTime = none := by
      intro hne
      rcases h with ⟨h1, _⟩ | ⟨h2, h3, _⟩
      · exact absurd h1 hne
      · exact ⟨h2, h3⟩
    cases exit with
    | waiting => exact ⟨by simp, st, rfl, hsucc, hfail⟩
    | panicked => exact ⟨by simp [finalReport, hphase], st, rfl, hsucc, hfail⟩
    | returned err => exact ⟨by simp [finalReport, hphase], st, rfl, hsucc, hfail⟩

theorem retryLoop_contexts (name tag : String) (f : Factory) (remaining : Nat) :
    ∀ (i : Nat) (pullContext : Context) (newStatus : ImageTagStatus) (lastError : Option Err)
      (attempts : List AttemptRecord) (j : Nat) (a : AttemptRecord),
      (retryLoop name tag f remaining i pullContext newStatus lastError attempts).2.2.2[j]?
          = some a →
        (j < attempts.length → attempts[j]? = some a)
        ∧ (j = attempts.length → a.ctx = pullContext)
        ∧ (attempts.length < j → a.ctx.canceled = true) := by
  have hone : ∀ (attempts : List AttemptRecord) (r : AttemptRecord) (j : Nat)
      (a : AttemptRecord), (attempts ++ [r])[j]? = some a →
        (j < attempts.length → attempts[j]? = some a)
        ∧ (j = attempts.length → a = r) ∧ ¬ attempts.length < j := by
    intro attempts r j a h
    rcases Nat.lt_trichotomy j attempts.length with hlt | heq | hgt
    · rw [List.getElem?_append_left hlt] at h
      exact ⟨fun _ => h, fun h2 => by omega, by omega⟩
    · subst heq
      simp at h
      exact ⟨fun h2 => by omega, fun _ => h.symm, by omega⟩
    · rw [List.getElem?_eq_none (by simp; omega)] at h
      cases h
  induction remaining with
  | zero =>
    intro i pullContext newStatus lastError attempts j a h
    simp only [retryLoop] at h
    have hlt : j < attempts.length := by
      by_contra hcon
      rw [List.getElem?_eq_none (by omega)] at h
      cases h
    exact ⟨fun _ => h, fun h2 => by omega, fun h2 => by omega⟩
  | succ n ih =>
    intro i pullContext newStatus lastError attempts j a h
    cases hex : (doPullImage (newWorker name tag f i) pullContext newStatus
        (f.schedule i)).exit with
    | returned err =>
      cases err with
      | none =>
        rw [retryLoop_succeeded _ _ _ _ _ _ _ _ _ hex] at h
        obtain ⟨h1, h2, h3⟩ := hone _ _ _ _ h
        exact ⟨h1, fun hj => by rw [h2 hj], fun hj => absurd hj h3⟩
      | some e =>
        rw [retryLoop_failed _ _ _ _ _ _ _ _ _ e hex] at h
        obtain ⟨h1, h2, h3⟩ := ih _ _ _ _ _ _ _ h
        simp only [List.length_append, List.length_singleton] at h1 h2 h3
        refine ⟨?_, ?_, ?_⟩
        · intro hj
          have := h1 (by omega)
          rwa [List.getElem?_append_left hj] at this
        · intro hj
          have := h1 (by omega)
          subst hj
          simp at this
          rw [← this]
        · intro hj
          rcases Nat.eq_or_lt_of_le (Nat.succ_le_of_lt hj) with heq | hlt
          · rw [h2 (by omega)]
          · exact h3 (by omega)
    | panicked =>
      simp only [retryLoop, hex] at h
      obtain ⟨h1, h2, h3⟩ := hone _ _ _ _ h
      exact ⟨h1, fun hj => by rw [h2 hj], fun hj => absurd hj h3⟩
    | waiting =>
      simp only [retryLoop, hex] at h
      obtain ⟨h1, h2, h3⟩ := hone _ _ _ _ h
      exact ⟨h1, fun hj => by rw [h2 hj], fun hj => absurd hj h3⟩

/-- Whatever the backend and the schedule are, `Pull` passes a live context to
its first attempt only: every later attempt starts with the context already
canceled. -/
theorem Pull_attempt_contexts (image : String) (f : Factory) (j : Nat) (a : AttemptRecord)
    (h : (Pull image f).attempts[j]? = some a) : a.ctx = contextOfAttempt j := by
  rcases hp : parseImageName image with ⟨name, tag, err⟩
  cases err with
  | some e =>
    unfold Pull at h
    rw [hp] at h
    simp at h
  | none =>
    rw [(Pull_of_retryLoop image name tag f hp).2] at h
    obtain ⟨_, h2, h3⟩ := retryLoop_contexts name tag f _ _ _ _ _ _ _ _ h
    simp only [List.length_nil] at h2 h3
    rcases Nat.eq_zero_or_pos j with hj | hj
    · subst hj
      rw [h2 rfl]
      rfl
    · have := h3 hj
      cases a with
      | mk ctx exit =>
        cases ctx with
        | mk canceled =>
          simp only at this
          subst this
          simp [contextOfAttempt, hj]

/-- C1. Retry bound of `Pull`: for an image string that parses and attempts of
`doPullImage` that return the outcomes `outs 0`, `outs 1`, ..., the number of
attempts made is `min(k, 4)` where `k` is the index, counted from 1, of the
first attempt that returns nil, and 4 when none does; `Pull` returns nil when
one of the first 4 attempts succeeds and the error of the 4th attempt
otherwise. A backend that always fails is attempted exactly 4 times, and one
that first succeeds on the 3rd attempt exactly 3 times, with success. -/
theorem Pull_retry_bound (image name tag : String) (f : Factory) (outs : Nat → Option Err)
    (hparse : parseImageName image = (name, tag, none))
    (hret : ∀ i, i < 4 → ∀ st,
      (doPullImage (newWorker name tag f i) (contextOfAttempt i) st (f.schedule i)).exit
        = Exit.returned (outs i)) :
    (∀ k, outs k = none → (∀ j, j < k → outs j ≠ none) →
        (Pull image f).attempts.length = min (k + 1) 4)
    ∧ ((∀ j, outs j ≠ none) → (Pull image f).attempts.length = 4)
    ∧ ((∃ i, i < 4 ∧ outs i = none) → (Pull image f).exit = Exit.returned none)
    ∧ ((∀ i, i < 4 → outs i ≠ none) →
        (Pull image f).exit = Exit.returned (outs 3) ∧ (Pull image f).attempts.length = 4)
    ∧ (outs 0 ≠ none → outs 1 ≠ none → outs 2 = none →
        (Pull image f).attempts.length = 3 ∧ (Pull image f).exit = Exit.returned none) := by
  have h0 : ∀ st, (doPullImage (newWorker name tag f 0) { canceled := false } st
      (f.schedule 0)).exit = Exit.returned (outs 0) := fun st => hret 0 (by omega) st
  have h1 : ∀ st, (doPullImage (newWorker name tag f 1) { canceled := true } st
      (f.schedule 1)).exit = Exit.returned (outs 1) := fun st => hret 1 (by omega) st
  have h2 : ∀ st, (doPullImage (newWorker name tag f 2) { canceled := true } st
      (f.schedule 2)).exit = Exit.returned (outs 2) := fun st => hret 2 (by omega) st
  have h3 : ∀ st, (doPullImage (newWorker name tag f 3) { canceled := true } st
      (f.schedule 3)).exit = Exit.returned (outs 3) := fun st => hret 3 (by omega) st
  obtain ⟨hexit, hatt⟩ := Pull_of_retryLoop image name tag f hparse
  have key :
      (outs 0 = none ∧ (Pull image f).attempts.length = 1
        ∧ (Pull image f).exit = Exit.returned none)
      ∨ (outs 0 ≠ none ∧ outs 1 = none ∧ (Pull image f).attempts.length = 2
        ∧ (Pull image f).exit = Exit.returned none)
      ∨ (outs 0 ≠ none ∧ outs 1 ≠ none ∧ outs 2 = none ∧ (Pull image f).attempts.length = 3
        ∧ (Pull image f).exit = Exit.returned none)
      ∨ (outs 0 ≠ none ∧ outs 1 ≠ none ∧ outs 2 ≠ none ∧ outs 3 = none
        ∧ (Pull image f).attempts.length = 4 ∧ (Pull image f).exit = Exit.returned none)
      ∨ (outs 0 ≠ none ∧ outs 1 ≠ none ∧ outs 2 ≠ none ∧ outs 3 ≠ none
        ∧ (Pull image f).attempts.length = 4
        ∧ (Pull image f).exit = Exit.returned (outs 3)) := by
    rw [hexit, hatt]
    simp only [backoffLimit]
    cases ho0 : outs 0 with
    | none =>
      left
      rw [retryLoop_succeeded _ _ _ _ _ _ _ _ _ (by rw [h0, ho0])]
      simp
    | some e0 =>
      right
      rw [retryLoop_failed _ _ _ _ _ _ _ _ _ e0 (by rw [h0, ho0])]
      cases ho1 : outs 1 with
      | none =>
        left
        rw [retryLoop_succeeded _ _ _ _ _ _ _ _ _ (by rw [h1, ho1])]
        simp
      | some e1 =>
        right
        rw [retryLoop_failed _ _ _ _ _ _ _ _ _ e1 (by rw [h1, ho1])]
        cases ho2 : outs 2 with
        | none =>
          left
          rw [retryLoop_succeeded _ _ _ _ _ _ _ _ _ (by rw [h2, ho2])]
          simp
        | some e2 =>
          right
          rw [retryLoop_failed _ _ _ _ _ _ _ _ _ e2 (by rw [h2, ho2])]
          cases ho3 : outs 3 with
          | none =>
            left
            rw [retryLoop_succeeded _ _ _ _ _ _ _ _ _ (by rw [h3, ho3])]
            simp
          | some e3 =>
            right
            rw [retryLoop_failed _ _ _ _ _ _ _ _ _ e3 (by rw [h3, ho3])]
            simp [retryLoop]
  refine ⟨?_, ?_, ?_, ?_, ?_⟩
  · intro k hk hlt
    have hle : ∀ j, outs j = none → k ≤ j := by
      intro j hj
      by_contra hcon
      exact hlt j (by omega) hj
    have hne : ∀ j, outs j ≠ none → k ≠ j := by
      intro j hj hkj
      exact hj (hkj ▸ hk)
    rcases key with ⟨a, hl, _⟩ | ⟨a, b, hl, _⟩ | ⟨a, b, c, hl, _⟩ | ⟨a, b, c, d, hl, _⟩
      | ⟨a, b, c, d, hl, _⟩
    · have := hle 0 a
      rw [hl]; omega
    · have := hle 1 b
      have := hne 0 a
      rw [hl]; omega
    · have := hle 2 c
      have := hne 0 a
      have := hne 1 b
      rw [hl]; omega
    · have := hle 3 d
      have := hne 0 a
      have := hne 1 b
      have := hne 2 c
      rw [hl]; omega
    · have := hne 0 a
      have := hne 1 b
      have := hne 2 c
      have := hne 3 d
      rw [hl]; omega
  · intro hall
    rcases key with ⟨a, _⟩ | ⟨_, b, _⟩ | ⟨_, _, c, _⟩ | ⟨_, _, _, d, _⟩ | ⟨_, _, _, _, hl, _⟩
    · exact absurd a (hall 0)
    · exact absurd b (hall 1)
    · exact absurd c (hall 2)
    · exact absurd d (hall 3)
    · exact hl
  · rintro ⟨i, hi, hnone⟩
    rcases key with ⟨_, _, he⟩ | ⟨_, _, _, he⟩ | ⟨_, _, _, _, he⟩ | ⟨_, _, _, _, _, he⟩
      | ⟨a, b, c, d, _, _⟩
    · exact he
    · exact he
    · exact he
    · exact he
    · exfalso
      interval_cases i
      · exact a hnone
      · exact b hnone
      · exact c hnone
      · exact d hnone
  · intro hall
    rcases key with ⟨a, _⟩ | ⟨_, b, _⟩ | ⟨_, _, c, _⟩ | ⟨_, _, _, d, _⟩ | ⟨_, _, _, _, hl, he⟩
    · exact absurd a (hall 0 (by omega))
    · exact absurd b (hall 1 (by omega))
    · exact absurd c (hall 2 (by omega))
    · exact absurd d (hall 3 (by omega))
    · exact ⟨he, hl⟩
  · intro n0 n1 n2
    rcases key with ⟨a, _⟩ | ⟨_, b, _⟩ | ⟨_, _, _, hl, he⟩ | ⟨_, _, c, _⟩ | ⟨_, _, c, _⟩
    · exact absurd a n0
    · exact absurd b n1
    · exact ⟨hl, he⟩
    · exact absurd n2 c
    · exact absurd n2 c

/-- A witness of C1: the image `repo` on a backend that fails twice and has
the image from the third attempt on is attempted 3 times, with success. -/
theorem Pull_retry_bound_witness :
    (Pull "repo" thirdTimeFactory).attempts.length = 3
    ∧ (Pull "repo" thirdTimeFactory).exit = Exit.returned none :=
  (Pull_retry_bound "repo" "repo" "latest" thirdTimeFactory
    (fun i => if i < 2 then some "pull failed" else none) (by decide)
    (by
      intro i hi st
      interval_cases i <;> rfl)).2.2.2.2
    (by decide) (by decide) (by decide)

/-- C2, the failing input. For the image `repo` on a backend that fails every
attempt, `Pull` passes a live context to the first attempt only: the second,
third and fourth attempts start with the context that `cancel()` has already
canceled after the first failure. -/
theorem Pull_retries_with_canceled_context :
    (Pull "repo" failingFactory).attempts.map (fun a => a.ctx.canceled)
      = [false, true, true, true]
    ∧ (Pull "repo" failingFactory).attempts.map (fun a => a.exit)
      = List.replicate 4 (Exit.returned (some "pull failed")) := by
  decide

/-- C9, the failing input. For the image `repo` on a backend that fails every
attempt, `Pull` returns the error of the last attempt while the status is left
in phase `Pulling` without completion time, and the final log line is the
success report, not the warning. -/
theorem Pull_reports_success_after_failure :
    (Pull "repo" failingFactory).exit = Exit.returned (some "pull failed")
    ∧ (Pull "repo" failingFactory).status.map (fun st => st.Phase)
      = some ImagePullPhase.Pulling
    ∧ (Pull "repo" failingFactory).status.map (fun st => st.CompletionTime) = some none
    ∧ (Pull "repo" failingFactory).report = some (FinalReport.succeeded "repo" "latest") := by
  decide

end ImagePuller
